import Mathlib

/-!
Shallow embedding of `user.go` from the Wavefront management API client
(package `wavefront`), the single source file of this repository.

Modelling conventions:
* Go `*string` becomes `Option String`; a nil-pointer dereference (a Go
  panic) is modelled by an operation returning `none` at its outcome level.
* JSON documents are modelled by the inductive `Json` below.  The behaviour
  of `encoding/json` is embedded for the concrete struct shapes the source
  uses: unmarshalling into an existing struct only updates the fields
  present in the document (merge semantics), a JSON `null` sets pointer
  and slice targets to nil and leaves other targets unchanged, and
  unknown object keys are ignored.  Field names are matched by their exact
  json tag (the case-insensitive fallback of `encoding/json` is not
  modelled; no claim depends on it).  JSON numbers are modelled as
  integers, which covers every numeric field of the source (`uint`).
  On a type mismatch the embedded decoder stops with an error, whereas
  `encoding/json` records the first error and keeps scanning; no claim
  observes the difference.
* The HTTP client collaborator (`Wavefronter`: NewRequest / Do / body
  read) lives in `client.go`, which is not part of this repository's
  source tree; it is modelled from the spec as an `Exchange` oracle giving
  the outcome of each collaborator step, plus a `Calls` trace recording
  the requests that were built and the number of executions.
* The generic search collaborator (`Search.Execute` from `search.go`,
  also external) is modelled from the spec as a finite list of
  `PageReply` values, consumed one per loop iteration by `Find`; the
  trace records the search type, conditions and offset passed on each
  call.
-/

/-- A parsed JSON document. -/
inductive Json where
  | null
  | str (s : String)
  | num (n : Int)
  | bool (b : Bool)
  | arr (elems : List Json)
  | obj (fields : List (String × Json))

/-- Modelled from the spec: the `UserGroup` struct is declared in
`usergroup.go`, which is not under the repository source tree.  The spec
describes it as "group identifier plus (when fully resolved) descriptive
fields"; wire fields `id` and `name` are the ones the spec's round-trip
property mentions.  `ID` is a `*string` in Go, hence `Option String`. -/
structure UserGroup where
  ID : Option String := none
  Name : String := ""

/-- `UserGroupsWrapper` from `user.go`: holds a sequence of `UserGroup`
and owns the asymmetric wire encoding. -/
structure UserGroupsWrapper where
  UserGroups : List UserGroup := []

/-- `User` from `user.go`.  Field order and json tags follow the source:
`identifier`, `customer,omitempty`, `lastSuccessfulLogin,omitempty`,
`groups,omitempty` (the permissions), `userGroups,omitempty`,
`credential,omitempty`. -/
structure User where
  ID : Option String := none
  Customer : String := ""
  LastSuccessfulLogin : Nat := 0
  Permissions : List String := []
  Groups : UserGroupsWrapper := {}
  Credential : String := ""

/-- `NewUserRequest` from `user.go`: `emailAddress`, `groups,omitempty`
(the permissions), `userGroups,omitempty`. -/
structure NewUserRequest where
  EmailAddress : String := ""
  Permissions : List String := []
  Groups : UserGroupsWrapper := {}

def baseUserPath : String := "/api/v2/user"

def AGENT_MANAGEMENT : String := "agent_management"

def ALERTS_MANAGEMENT : String := "alerts_management"

def DASHBOARD_MANAGEMENT : String := "dashboard_management"

def EMBEDDED_CHARTS_MANAGEMENT : String := "embedded_charts"

def EVENTS_MANAGEMENT : String := "events_management"

def EXTERNAL_LINKS_MANAGEMENT : String := "external_links_management"

def HOST_TAG_MANAGEMENT : String := "host_tag_management"

def METRICS_MANAGEMENT : String := "metrics_management"

def USER_MANAGEMENT : String := "user_management"

def INTEGRATIONS_MANAGEMENT : String := "application_management"

def DIRECT_INGESTION : String := "ingestion"

def BATCH_QUERY_PRIORITY : String := "batch_query_priority"

def DERIVED_METRICS_MANAGEMENT : String := "derived_metrics_management"

/-- One element of `json.Unmarshal(data, &groupIds)` with
`groupIds : []*string`: a string element yields a pointer to it, a null
element yields a nil pointer, anything else is a type error. -/
def decodeIdElem : Json → Option (Option String)
  | Json.str s => some (some s)
  | Json.null => some none
  | _ => none

/-- `json.Unmarshal` of an array into `[]*string`, element by element. -/
def decodeIdList : List Json → Option (List (Option String))
  | [] => some []
  | x :: rest =>
    match decodeIdElem x with
    | none => none
    | some v =>
      match decodeIdList rest with
      | none => none
      | some vs => some (v :: vs)

/-- The first decode attempt of `UserGroupsWrapper.UnmarshalJSON`:
`json.Unmarshal(data, &groupIds)` with `groupIds : []*string`.  A JSON
null leaves the nil slice as is (success with no elements); an array
succeeds when every element is a string or null. -/
def decodeGroupIds : Json → Option (List (Option String))
  | Json.null => some []
  | Json.arr xs => decodeIdList xs
  | _ => none

/-- One json object field decoded into an existing `UserGroup`
(merge semantics of `encoding/json`): `id` is a `*string` (null sets the
pointer to nil), `name` a plain string, unknown keys are ignored. -/
def decodeUserGroupField (g : UserGroup) (kv : String × Json) : Option UserGroup :=
  if kv.1 = "id" then
    match kv.2 with
    | Json.null => some { g with ID := none }
    | Json.str s => some { g with ID := some s }
    | _ => none
  else if kv.1 = "name" then
    match kv.2 with
    | Json.null => some g
    | Json.str s => some { g with Name := s }
    | _ => none
  else some g

/-- Fields of a json object folded into an existing `UserGroup`. -/
def decodeUserGroupFields : UserGroup → List (String × Json) → Option UserGroup
  | g, [] => some g
  | g, kv :: rest =>
    match decodeUserGroupField g kv with
    | none => none
    | some g2 => decodeUserGroupFields g2 rest

/-- `json.Unmarshal` of one element into a fresh `UserGroup` (elements of
`w.UserGroups` start at their zero value): an object is decoded field by
field, a null leaves the zero value, anything else is a type error. -/
def decodeUserGroup : Json → Option UserGroup
  | Json.null => some {}
  | Json.obj fs => decodeUserGroupFields {} fs
  | _ => none

/-- `json.Unmarshal` of an array into `[]UserGroup`, element by element. -/
def decodeUserGroupItems : List Json → Option (List UserGroup)
  | [] => some []
  | x :: rest =>
    match decodeUserGroup x with
    | none => none
    | some g =>
      match decodeUserGroupItems rest with
      | none => none
      | some gs => some (g :: gs)

/-- The fallback decode attempt of `UserGroupsWrapper.UnmarshalJSON`:
`json.Unmarshal(data, &w.UserGroups)` with `w.UserGroups : []UserGroup`.
An array replaces the slice contents; a null would set the slice to
nil, but that case is unreachable from the wrapper, whose first attempt
accepts null. -/
def decodeUserGroupList : Json → Option (List UserGroup)
  | Json.arr xs => decodeUserGroupItems xs
  | _ => none

/-- `UserGroupsWrapper.UnmarshalJSON` (user.go lines 215-231): first try
to read an array of plain string IDs, binding each to an otherwise-empty
group appended to `w.UserGroups`; failing that, read the value directly
as a list of full group objects. -/
def UserGroupsWrapper.unmarshalJSON (w : UserGroupsWrapper) (data : Json) :
    Except String UserGroupsWrapper :=
  match decodeGroupIds data with
  | some ids => Except.ok ⟨w.UserGroups ++ ids.map (fun v => { ID := v })⟩
  | none =>
    match data with
    | Json.null => Except.ok ⟨[]⟩
    | _ =>
      match decodeUserGroupList data with
      | some gs => Except.ok ⟨gs⟩
      | none => Except.error "json: cannot unmarshal value into UserGroupsWrapper"

/-- The loop body of `UserGroupsWrapper.MarshalJSON` (user.go lines
234-244): walk every group, dereference its `ID` pointer (`none` models
the nil-pointer panic), and keep the non-empty IDs in order. -/
def collectGroupIds : List UserGroup → Option (List String)
  | [] => some []
  | g :: gs =>
    match g.ID with
    | none => none
    | some id =>
      match collectGroupIds gs with
      | none => none
      | some rest => some (if id = "" then rest else id :: rest)

/-- `UserGroupsWrapper.MarshalJSON`: the collected ids are marshalled as
a JSON array; the `ids` slice starts nil and `json.Marshal` of a nil
slice produces `null`.  The outer `none` models the nil-pointer panic on
a group whose `ID` pointer is absent. -/
def UserGroupsWrapper.marshalJSON (w : UserGroupsWrapper) : Option Json :=
  (collectGroupIds w.UserGroups).map fun ids =>
    if ids.isEmpty then Json.null else Json.arr (ids.map Json.str)

/-- One element of the `groups` (permissions) array decoded into a plain
`string`: a null element leaves the zero value `""`. -/
def decodePermElem : Json → Option String
  | Json.str s => some s
  | Json.null => some ""
  | _ => none

/-- `json.Unmarshal` of an array into `[]string`, element by element. -/
def decodePermList : List Json → Option (List String)
  | [] => some []
  | x :: rest =>
    match decodePermElem x with
    | none => none
    | some s =>
      match decodePermList rest with
      | none => none
      | some ss => some (s :: ss)

/-- One json object field decoded into an existing `User` (merge
semantics of `encoding/json`): only the fields named by the struct's
json tags are touched, unknown keys are ignored; a null value sets the
pointer field `identifier` and the slice field `groups` to nil and
leaves the string and numeric fields unchanged. -/
def decodeUserField (u : User) (kv : String × Json) : Except String User :=
  if kv.1 = "identifier" then
    match kv.2 with
    | Json.null => Except.ok { u with ID := none }
    | Json.str s => Except.ok { u with ID := some s }
    | _ => Except.error "json: cannot unmarshal value into field identifier"
  else if kv.1 = "customer" then
    match kv.2 with
    | Json.null => Except.ok u
    | Json.str s => Except.ok { u with Customer := s }
    | _ => Except.error "json: cannot unmarshal value into field customer"
  else if kv.1 = "lastSuccessfulLogin" then
    match kv.2 with
    | Json.null => Except.ok u
    | Json.num n =>
      if n < 0 then Except.error "json: cannot unmarshal value into field lastSuccessfulLogin"
      else Except.ok { u with LastSuccessfulLogin := n.toNat }
    | _ => Except.error "json: cannot unmarshal value into field lastSuccessfulLogin"
  else if kv.1 = "groups" then
    match kv.2 with
    | Json.null => Except.ok { u with Permissions := [] }
    | Json.arr xs =>
      match decodePermList xs with
      | some ps => Except.ok { u with Permissions := ps }
      | none => Except.error "json: cannot unmarshal value into field groups"
    | _ => Except.error "json: cannot unmarshal value into field groups"
  else if kv.1 = "userGroups" then
    match u.Groups.unmarshalJSON kv.2 with
    | Except.ok w => Except.ok { u with Groups := w }
    | Except.error e => Except.error e
  else if kv.1 = "credential" then
    match kv.2 with
    | Json.null => Except.ok u
    | Json.str s => Except.ok { u with Credential := s }
    | _ => Except.error "json: cannot unmarshal value into field credential"
  else Except.ok u

/-- Fields of a json object folded into an existing `User`. -/
def decodeUserFields : User → List (String × Json) → Except String User
  | u, [] => Except.ok u
  | u, kv :: rest =>
    match decodeUserField u kv with
    | Except.error e => Except.error e
    | Except.ok u2 => decodeUserFields u2 rest

/-- `json.Unmarshal(body, &user)` with `user : *User` pointing at an
existing value: an object is merged into that value field by field, a
null has no caller-visible effect, anything else is a type error. -/
def decodeUserInto (u : User) : Json → Except String User
  | Json.null => Except.ok u
  | Json.obj fs => decodeUserFields u fs
  | _ => Except.error "json: cannot unmarshal value into User"

/-- `json.Marshal` of a `User`: emits the fields in declaration order,
honouring each `omitempty` tag; `identifier` carries no `omitempty`, and
`omitempty` has no effect on the struct-typed `userGroups`, whose value
comes from `UserGroupsWrapper.MarshalJSON` (the `none` case models the
panic inside that marshaller). -/
def User.marshalJSON (u : User) : Option Json :=
  (u.Groups.marshalJSON).map fun gj =>
    Json.obj
      ([("identifier", match u.ID with
          | none => Json.null
          | some s => Json.str s)]
        ++ (if u.Customer = "" then [] else [("customer", Json.str u.Customer)])
        ++ (if u.LastSuccessfulLogin = 0 then []
            else [("lastSuccessfulLogin", Json.num (Int.ofNat u.LastSuccessfulLogin))])
        ++ (if u.Permissions.isEmpty then []
            else [("groups", Json.arr (u.Permissions.map Json.str))])
        ++ [("userGroups", gj)]
        ++ (if u.Credential = "" then [] else [("credential", Json.str u.Credential)]))

/-- `json.Marshal` of a `NewUserRequest`: `emailAddress` always,
`groups` under `omitempty`, `userGroups` always (struct-typed). -/
def NewUserRequest.marshalJSON (r : NewUserRequest) : Option Json :=
  (r.Groups.marshalJSON).map fun gj =>
    Json.obj
      ([("emailAddress", Json.str r.EmailAddress)]
        ++ (if r.Permissions.isEmpty then []
            else [("groups", Json.arr (r.Permissions.map Json.str))])
        ++ [("userGroups", gj)])

/-- A request as assembled by the collaborator's request builder:
`NewRequest(method, path, params, body)`. -/
structure Request where
  method : String
  path : String
  params : Option (List (String × String))
  payload : Option Json

/-- Modelled from the spec: the `Wavefronter` client collaborator
(`client.go`) is not under the repository source tree.  An `Exchange`
fixes the outcome of each collaborator step for one operation: whether
request construction fails, whether execution fails, and the response
body (an error models a read failure, a value the parsed body). -/
structure Exchange where
  reqErr : Option String := none
  doErr : Option String := none
  body : Except String Json := Except.ok Json.null

/-- Trace of collaborator activity during one operation: the requests
passed to the builder, the number of executions, and the number of
search calls (always zero for the CRUD operations). -/
structure Calls where
  built : List Request := []
  executed : Nat := 0
  searched : Nat := 0

/-- Result of one CRUD operation: `outcome = none` models a runtime
panic (nil-pointer dereference), otherwise the Go error value; `user` is
the state of the caller's `User` after the call; `calls` the
collaborator trace. -/
structure OpResult where
  outcome : Option (Except String Unit)
  user : User
  calls : Calls

/-- `Users.updateUser` (user.go lines 190-212): marshal the user, build
the request, execute it, read the body and unmarshal it back into the
same user. -/
def Users.updateUser (method path : String) (params : Option (List (String × String)))
    (user : User) (e : Exchange) : OpResult :=
  match User.marshalJSON user with
  | none => ⟨none, user, {}⟩
  | some payload =>
    let req : Request := ⟨method, path, params, some payload⟩
    match e.reqErr with
    | some err => ⟨some (Except.error err), user, { built := [req] }⟩
    | none =>
      match e.doErr with
      | some err => ⟨some (Except.error err), user, { built := [req], executed := 1 }⟩
      | none =>
        match e.body with
        | Except.error err =>
          ⟨some (Except.error err), user, { built := [req], executed := 1 }⟩
        | Except.ok b =>
          match decodeUserInto user b with
          | Except.ok u2 => ⟨some (Except.ok ()), u2, { built := [req], executed := 1 }⟩
          | Except.error err =>
            ⟨some (Except.error err), user, { built := [req], executed := 1 }⟩

/-- `Users.Get` (user.go lines 79-85): dereference the `ID` pointer
(panic when nil), reject an empty ID before any collaborator call, then
GET `<base>/<id>` through `updateUser`. -/
def Users.Get (user : User) (e : Exchange) : OpResult :=
  match user.ID with
  | none => ⟨none, user, {}⟩
  | some id =>
    if id = "" then ⟨some (Except.error "user ID field is not set"), user, {}⟩
    else Users.updateUser "GET" (baseUserPath ++ "/" ++ id) none user e

/-- `Users.Update` (user.go lines 159-165): same as `Get` with PUT. -/
def Users.Update (user : User) (e : Exchange) : OpResult :=
  match user.ID with
  | none => ⟨none, user, {}⟩
  | some id =>
    if id = "" then ⟨some (Except.error "user ID field is not set"), user, {}⟩
    else Users.updateUser "PUT" (baseUserPath ++ "/" ++ id) none user e

/-- `Users.Delete` (user.go lines 169-188): validate the ID, issue a
DELETE with no body, never read the response body, and on success clear
the caller's ID string through the pointer. -/
def Users.Delete (user : User) (e : Exchange) : OpResult :=
  match user.ID with
  | none => ⟨none, user, {}⟩
  | some id =>
    if id = "" then ⟨some (Except.error "user ID field is not set"), user, {}⟩
    else
      let req : Request := ⟨"DELETE", baseUserPath ++ "/" ++ id, none, none⟩
      match e.reqErr with
      | some err => ⟨some (Except.error err), user, { built := [req] }⟩
      | none =>
        match e.doErr with
        | some err => ⟨some (Except.error err), user, { built := [req], executed := 1 }⟩
        | none =>
          ⟨some (Except.ok ()), { user with ID := some "" }, { built := [req], executed := 1 }⟩

/-- The anonymous envelope of `Users.Create`:
`json.Unmarshal(body, &struct{ Response *User }{Response: user})`.
Only the `response` key is a known field; it is decoded (merged) into
the caller's user through the non-nil pointer, every other top-level key
is ignored, and a null `response` only clears the envelope's own pointer
field. -/
def decodeCreateEnvelopeFields : User → List (String × Json) → Except String User
  | u, [] => Except.ok u
  | u, (k, v) :: rest =>
    if k = "response" then
      match decodeUserInto u v with
      | Except.ok u2 => decodeCreateEnvelopeFields u2 rest
      | Except.error e => Except.error e
    else decodeCreateEnvelopeFields u rest

/-- `json.Unmarshal` of the create response body into the envelope. -/
def decodeCreateEnvelope (u : User) : Json → Except String User
  | Json.null => Except.ok u
  | Json.obj fs => decodeCreateEnvelopeFields u fs
  | _ => Except.error "json: cannot unmarshal value into create response envelope"

/-- `Users.Create` (user.go lines 121-155): validate the email first,
build the `sendEmail` query parameter with `fmt.Sprintf("%t", ...)`,
marshal the request, POST to the base user path, and decode the response
through the `response` envelope into the caller's user. -/
def Users.Create (newUser : NewUserRequest) (user : User) (sendEmail : Bool)
    (e : Exchange) : OpResult :=
  if newUser.EmailAddress = "" then
    ⟨some (Except.error "a valid email address must be specified"), user, {}⟩
  else
    let params : List (String × String) :=
      [("sendEmail", if sendEmail then "true" else "false")]
    match NewUserRequest.marshalJSON newUser with
    | none => ⟨none, user, {}⟩
    | some payload =>
      let req : Request := ⟨"POST", baseUserPath, some params, some payload⟩
      match e.reqErr with
      | some err => ⟨some (Except.error err), user, { built := [req] }⟩
      | none =>
        match e.doErr with
        | some err => ⟨some (Except.error err), user, { built := [req], executed := 1 }⟩
        | none =>
          match e.body with
          | Except.error err =>
            ⟨some (Except.error err), user, { built := [req], executed := 1 }⟩
          | Except.ok b =>
            match decodeCreateEnvelope user b with
            | Except.ok u2 => ⟨some (Except.ok ()), u2, { built := [req], executed := 1 }⟩
            | Except.error err =>
              ⟨some (Except.error err), user, { built := [req], executed := 1 }⟩

/-- Modelled from the spec: `SearchCondition` lives in `search.go`,
which is not under the repository source tree; the spec treats search
conditions as opaque values passed through to the collaborator. -/
structure SearchCondition where
  key : String := ""
  value : String := ""
  matchingMethod : String := ""

/-- One element of `json.Unmarshal(items, &tmpres)` with
`tmpres : []*User`: a null element is a nil pointer, an object is
decoded into a fresh zero-valued `User`. -/
def decodeUserItem : Json → Except String (Option User)
  | Json.null => Except.ok none
  | Json.obj fs =>
    match decodeUserFields {} fs with
    | Except.ok u => Except.ok (some u)
    | Except.error e => Except.error e
  | _ => Except.error "json: cannot unmarshal value into User"

/-- `json.Unmarshal` of an array into `[]*User`, element by element. -/
def decodeUserItems : List Json → Except String (List (Option User))
  | [] => Except.ok []
  | x :: rest =>
    match decodeUserItem x with
    | Except.error e => Except.error e
    | Except.ok u =>
      match decodeUserItems rest with
      | Except.error e => Except.error e
      | Except.ok us => Except.ok (u :: us)

/-- `json.Unmarshal(resp.Response.Items, &tmpres)` with
`tmpres : []*User`. -/
def decodeUsers : Json → Except String (List (Option User))
  | Json.null => Except.ok []
  | Json.arr xs => decodeUserItems xs
  | _ => Except.error "json: cannot unmarshal value into a User list"

/-- Modelled from the spec: one reply of the external search collaborator
(`Search.Execute`, `search.go`): either an execution error, or a page
carrying the raw items, the "more items" flag and the next offset. -/
inductive PageReply where
  | err (e : String)
  | page (items : Json) (moreItems : Bool) (nextOffset : Int)

/-- One search call as issued by `Find`: the search type, the conditions
and the offset in force when `Execute` ran. -/
structure SearchCall where
  type : String
  conditions : List SearchCondition
  offset : Int

/-- Result of `Users.Find`: the returned value (the accumulated users,
or the first error with no results at all) plus the trace of search
calls. -/
structure FindTrace where
  result : Except String (List (Option User))
  calls : List SearchCall

/-- The loop of `Users.Find` (user.go lines 99-114), consuming one
collaborator reply per iteration: execute, unmarshal the page's items,
append them to the accumulator, then follow the "more items" flag and
the next offset.  An exhausted reply list models a collaborator with no
further behaviour and ends the trace with a stub error. -/
def Users.findGo (filter : List SearchCondition) :
    List PageReply → Int → List (Option User) → List SearchCall → FindTrace
  | [], _, _, calls => ⟨Except.error "search collaborator stub exhausted", calls⟩
  | r :: rest, offset, acc, calls =>
    let calls2 := calls ++ [⟨"user", filter, offset⟩]
    match r with
    | PageReply.err e => ⟨Except.error e, calls2⟩
    | PageReply.page items moreItems nextOffset =>
      match decodeUsers items with
      | Except.error e => ⟨Except.error e, calls2⟩
      | Except.ok tmpres =>
        if moreItems then Users.findGo filter rest nextOffset (acc ++ tmpres) calls2
        else ⟨Except.ok (acc ++ tmpres), calls2⟩

/-- `Users.Find` (user.go lines 90-117): a search of type `"user"` with
the given conditions, starting at the zero offset, accumulating pages
until the flag turns false. -/
def Users.Find (filter : List SearchCondition) (pages : List PageReply) : FindTrace :=
  Users.findGo filter pages 0 [] []

/-- The value of the last `id` key of a json object, if any: the
occurrence `encoding/json` leaves in force after decoding them all in
order. -/
def lastIdVal : List (String × Json) → Option Json
  | [] => none
  | (k, v) :: fs =>
    match lastIdVal fs with
    | some j => some j
    | none => if k = "id" then some v else none

/-- A wire-side predicate: the element carries a non-empty group ID,
whether it is a plain ID string or a full group object. -/
def wireElemIdNonEmpty : Json → Bool
  | Json.str s => decide (s ≠ "")
  | Json.obj fs =>
    match lastIdVal fs with
    | some (Json.str s) => decide (s ≠ "")
    | _ => false
  | _ => false

/-- A wire-side predicate: every element of the membership array carries
a non-empty group ID (vacuously true off the array shape). -/
def wireIdsNonEmpty : Json → Bool
  | Json.arr xs => xs.all wireElemIdNonEmpty
  | _ => true

/-- The values stored under the `response` key of the create response
envelope, in order. -/
def responseVals : List (String × Json) → List Json
  | [] => []
  | (k, v) :: fs => if k = "response" then v :: responseVals fs else responseVals fs

/-- Sequential decoding of a list of `response` values into a user; the
characterization target for the envelope decoder. -/
def applyResponses : User → List Json → Except String User
  | u, [] => Except.ok u
  | u, v :: rest =>
    match decodeUserInto u v with
    | Except.ok u2 => applyResponses u2 rest
    | Except.error e => Except.error e

theorem collectGroupIds_eq_filterMap (gs : List UserGroup)
    (h : ∀ g ∈ gs, (g.ID).isSome) :
    collectGroupIds gs =
      some (gs.filterMap fun g => (g.ID).bind fun s => if s = "" then none else some s) := by
  induction gs with
  | nil => rfl
  | cons g gs ih =>
    have hg := h g (List.mem_cons_self g gs)
    match hid : g.ID with
    | none => rw [hid] at hg; simp at hg
    | some s =>
      have hrest := ih fun x hx => h x (List.mem_cons_of_mem _ hx)
      by_cases hs : s = "" <;>
        simp [collectGroupIds, hid, hrest, List.filterMap_cons, hs]

theorem collectGroupIds_eq_none (gs : List UserGroup) (g : UserGroup)
    (hmem : g ∈ gs) (hid : g.ID = none) : collectGroupIds gs = none := by
  induction gs with
  | nil => cases hmem
  | cons a gs ih =>
    rcases List.mem_cons.mp hmem with h | h
    · subst h; simp [collectGroupIds, hid]
    · match ha : a.ID with
      | none => simp [collectGroupIds, ha]
      | some s => simp [collectGroupIds, ha, ih h]

/-- Claim C1: for every User whose identifier is the empty string, Get,
Update and Delete return the validation error, and for every
NewUserRequest with empty email Create returns the validation error; in
all four cases no request is built, nothing is executed, no search is
made, and the caller's User is unchanged. -/
theorem claim1_empty_required_field_validation
    (user : User) (e : Exchange) (nu : NewUserRequest) (out : User) (se : Bool)
    (hid : user.ID = some "") (hmail : nu.EmailAddress = "") :
    Users.Get user e = ⟨some (Except.error "user ID field is not set"), user, {}⟩
    ∧ Users.Update user e = ⟨some (Except.error "user ID field is not set"), user, {}⟩
    ∧ Users.Delete user e = ⟨some (Except.error "user ID field is not set"), user, {}⟩
    ∧ Users.Create nu out se e =
        ⟨some (Except.error "a valid email address must be specified"), out, {}⟩ := by
  refine ⟨?_, ?_, ?_, ?_⟩ <;>
    simp [Users.Get, Users.Update, Users.Delete, Users.Create, hid, hmail]

theorem claim1_empty_required_field_validation_witness :
    Users.Get { ID := some "" } {} =
      ⟨some (Except.error "user ID field is not set"), { ID := some "" }, {}⟩
    ∧ Users.Update { ID := some "" } {} =
      ⟨some (Except.error "user ID field is not set"), { ID := some "" }, {}⟩
    ∧ Users.Delete { ID := some "" } {} =
      ⟨some (Except.error "user ID field is not set"), { ID := some "" }, {}⟩
    ∧ Users.Create { EmailAddress := "" } {} true {} =
      ⟨some (Except.error "a valid email address must be specified"), {}, {}⟩ :=
  claim1_empty_required_field_validation
    { ID := some "" } {} { EmailAddress := "" } {} true rfl rfl

/-- Claim C2: the group-membership encoder emits exactly the IDs of the
groups whose ID is non-empty, in their original order, silently omitting
groups with empty ID; an empty input encodes as the absent sequence
(JSON null, from the nil slice).  Stated for lists in which every
group's ID pointer is present, the totality precondition recorded by the
nil-pointer claim. -/
theorem claim2_encoder_filters_empty_ids (gs : List UserGroup)
    (h : ∀ g ∈ gs, (g.ID).isSome) :
    UserGroupsWrapper.marshalJSON ⟨gs⟩ =
      some
        (if (gs.filterMap fun g => (g.ID).bind fun s =>
              if s = "" then none else some s).isEmpty
         then Json.null
         else Json.arr ((gs.filterMap fun g => (g.ID).bind fun s =>
              if s = "" then none else some s).map Json.str)) := by
  simp [UserGroupsWrapper.marshalJSON, collectGroupIds_eq_filterMap gs h]

theorem claim2_encoder_filters_empty_ids_witness :
    UserGroupsWrapper.marshalJSON ⟨[⟨some "g1", ""⟩, ⟨some "", ""⟩, ⟨some "g2", "Eng"⟩]⟩
      = some (Json.arr [Json.str "g1", Json.str "g2"])
    ∧ UserGroupsWrapper.marshalJSON ⟨[]⟩ = some Json.null :=
  ⟨claim2_encoder_filters_empty_ids
      [⟨some "g1", ""⟩, ⟨some "", ""⟩, ⟨some "g2", "Eng"⟩] (by decide),
   claim2_encoder_filters_empty_ids [] (by decide)⟩

/-- Claim C3: the concrete round-trip shapes.  Encoding groups g1, g2
and an empty-ID group yields the wire value ["g1","g2"]; decoding
["g1","g2"] yields two groups with only the ID set; decoding the full
object [{"id":"g1","name":"Eng"}] yields one group with ID and name. -/
theorem claim3_round_trip_shapes :
    UserGroupsWrapper.marshalJSON ⟨[⟨some "g1", ""⟩, ⟨some "g2", ""⟩, ⟨some "", ""⟩]⟩
      = some (Json.arr [Json.str "g1", Json.str "g2"])
    ∧ UserGroupsWrapper.unmarshalJSON ⟨[]⟩ (Json.arr [Json.str "g1", Json.str "g2"])
      = Except.ok ⟨[⟨some "g1", ""⟩, ⟨some "g2", ""⟩]⟩
    ∧ UserGroupsWrapper.unmarshalJSON ⟨[]⟩
        (Json.arr [Json.obj [("id", Json.str "g1"), ("name", Json.str "Eng")]])
      = Except.ok ⟨[⟨some "g1", "Eng"⟩]⟩ :=
  ⟨rfl, rfl, rfl⟩

/-- Claim C4 fails as stated: the decoder accepts the wire value [""]
through the plain-ID path and produces a group whose ID is the empty
string; no non-emptiness is enforced on decode. -/
theorem claim4_counterexample :
    ¬ (∀ (data : Json) (w2 : UserGroupsWrapper),
        UserGroupsWrapper.unmarshalJSON ⟨[]⟩ data = Except.ok w2 →
        ∀ g ∈ w2.UserGroups, ∃ s, g.ID = some s ∧ s ≠ "") := by
  intro h
  have hdec : UserGroupsWrapper.unmarshalJSON ⟨[]⟩ (Json.arr [Json.str ""])
      = Except.ok ⟨[⟨some "", ""⟩]⟩ := rfl
  obtain ⟨s, hs, hne⟩ := h _ _ hdec ⟨some "", ""⟩ (by simp)
  exact hne (Option.some_injective _ hs.symm ▸ rfl)

theorem decodeUserGroupField_id_preserved (g g2 : UserGroup) (k : String) (v : Json)
    (hk : k ≠ "id") (h : decodeUserGroupField g (k, v) = some g2) : g2.ID = g.ID := by
  unfold decodeUserGroupField at h
  rw [if_neg hk] at h
  by_cases hn : k = "name"
  · rw [if_pos hn] at h
    cases v with
    | null => cases h; rfl
    | str s => cases h; rfl
    | num n => cases h
    | bool b => cases h
    | arr ys => cases h
    | obj fs2 => cases h
  · rw [if_neg hn] at h
    cases h
    rfl

theorem decodeUserGroupFields_id_of_no_id (fs : List (String × Json)) :
    ∀ g0 g, lastIdVal fs = none → decodeUserGroupFields g0 fs = some g →
    g.ID = g0.ID := by
  induction fs with
  | nil =>
    intro g0 g _ h
    cases h
    rfl
  | cons kv rest ih =>
    intro g0 g hlast h
    obtain ⟨k, v⟩ := kv
    cases hr : lastIdVal rest with
    | some j => rw [lastIdVal, hr] at hlast; cases hlast
    | none =>
      rw [lastIdVal, hr] at hlast
      have hk : k ≠ "id" := by
        intro hk
        rw [if_pos hk] at hlast
        cases hlast
      rw [decodeUserGroupFields] at h
      cases hf : decodeUserGroupField g0 (k, v) with
      | none => rw [hf] at h; cases h
      | some g1 =>
        rw [hf] at h
        have h1 : g1.ID = g0.ID :=
          decodeUserGroupField_id_preserved g0 g1 k v hk hf
        rw [ih g1 g hr h]
        exact h1

theorem decodeUserGroupFields_id_of_last_str (fs : List (String × Json)) :
    ∀ g0 g s, lastIdVal fs = some (Json.str s) → decodeUserGroupFields g0 fs = some g →
    g.ID = some s := by
  induction fs with
  | nil => intro g0 g s hlast; cases hlast
  | cons kv rest ih =>
    intro g0 g s hlast h
    obtain ⟨k, v⟩ := kv
    rw [decodeUserGroupFields] at h
    cases hf : decodeUserGroupField g0 (k, v) with
    | none => rw [hf] at h; cases h
    | some g1 =>
      rw [hf] at h
      cases hr : lastIdVal rest with
      | some j =>
        rw [lastIdVal, hr] at hlast
        cases hlast
        exact ih g1 g s hr h
      | none =>
        rw [lastIdVal, hr] at hlast
        simp only at hlast
        by_cases hk : k = "id"
        · rw [if_pos hk] at hlast
          cases hlast
          have h1 : g1.ID = some s := by
            subst hk
            unfold decodeUserGroupField at hf
            rw [if_pos rfl] at hf
            cases hf
            rfl
          rw [decodeUserGroupFields_id_of_no_id rest g1 g hr h]
          exact h1
        · rw [if_neg hk] at hlast
          cases hlast

theorem decodeIdList_nonempty (xs : List Json) :
    ∀ vs, (∀ x ∈ xs, wireElemIdNonEmpty x = true) → decodeIdList xs = some vs →
    ∀ v ∈ vs, ∃ s, v = some s ∧ s ≠ "" := by
  induction xs with
  | nil =>
    intro vs _ h v hv
    cases h
    cases hv
  | cons x rest ih =>
    intro vs hall h v hv
    have hx := hall x (List.mem_cons_self x rest)
    cases x with
    | str s =>
      rw [decodeIdList, decodeIdElem] at h
      cases hr : decodeIdList rest with
      | none => rw [hr] at h; cases h
      | some vs2 =>
        rw [hr] at h
        cases h
        rcases List.mem_cons.mp hv with h1 | h1
        · exact ⟨s, h1, by simpa [wireElemIdNonEmpty] using hx⟩
        · exact ih vs2 (fun y hy => hall y (List.mem_cons_of_mem _ hy)) hr v h1
    | null => simp [wireElemIdNonEmpty] at hx
    | num n => simp [wireElemIdNonEmpty] at hx
    | bool b => simp [wireElemIdNonEmpty] at hx
    | arr ys => simp [wireElemIdNonEmpty] at hx
    | obj fs => simp [decodeIdList, decodeIdElem] at h

theorem decodeUserGroupItems_nonempty (xs : List Json) :
    ∀ gs, (∀ x ∈ xs, wireElemIdNonEmpty x = true) → decodeUserGroupItems xs = some gs →
    ∀ g ∈ gs, ∃ s, g.ID = some s ∧ s ≠ "" := by
  induction xs with
  | nil =>
    intro gs _ h g hg
    cases h
    cases hg
  | cons x rest ih =>
    intro gs hall h g hg
    have hx := hall x (List.mem_cons_self x rest)
    cases x with
    | obj fs =>
      rw [decodeUserGroupItems] at h
      cases hd : decodeUserGroup (Json.obj fs) with
      | none => rw [hd] at h; cases h
      | some g1 =>
        rw [hd] at h
        cases hr : decodeUserGroupItems rest with
        | none => rw [hr] at h; cases h
        | some gs2 =>
          rw [hr] at h
          cases h
          rcases List.mem_cons.mp hg with h1 | h1
          · subst h1
            rw [wireElemIdNonEmpty] at hx
            cases hl : lastIdVal fs with
            | none => rw [hl] at hx; cases hx
            | some j =>
              rw [hl] at hx
              cases j with
              | str s =>
                refine ⟨s, ?_, by simpa using hx⟩
                rw [decodeUserGroup] at hd
                exact decodeUserGroupFields_id_of_last_str fs {} g s hl hd
              | null => cases hx
              | num n => cases hx
              | bool b => cases hx
              | arr ys => cases hx
              | obj fs2 => cases hx
          · exact ih gs2 (fun y hy => hall y (List.mem_cons_of_mem _ hy)) hr g h1
    | null => simp [wireElemIdNonEmpty] at hx
    | str s => simp [decodeUserGroupItems, decodeUserGroup] at h
    | num n => simp [wireElemIdNonEmpty] at hx
    | bool b => simp [wireElemIdNonEmpty] at hx
    | arr ys => simp [wireElemIdNonEmpty] at hx

/-- Claim C4 amended: the decoder performs no filtering, so the
invariant holds exactly when the wire value itself carries no empty
(or absent) IDs: for every accepted wire value all of whose elements
carry a non-empty ID — plain non-empty ID strings, or group objects
whose effective `id` field is a non-empty string — every decoded
UserGroup has a non-empty ID. -/
theorem claim4_amended (data : Json) (w2 : UserGroupsWrapper)
    (hne : wireIdsNonEmpty data = true)
    (hdec : UserGroupsWrapper.unmarshalJSON ⟨[]⟩ data = Except.ok w2) :
    ∀ g ∈ w2.UserGroups, ∃ s, g.ID = some s ∧ s ≠ "" := by
  intro g hg
  cases data with
  | null =>
    simp [UserGroupsWrapper.unmarshalJSON, decodeGroupIds] at hdec
    rw [← hdec] at hg
    simp at hg
  | arr xs =>
    have hall : ∀ x ∈ xs, wireElemIdNonEmpty x = true := by
      rw [wireIdsNonEmpty] at hne
      exact fun x hx => List.all_eq_true.mp hne x hx
    cases hids : decodeIdList xs with
    | some ids =>
      simp [UserGroupsWrapper.unmarshalJSON, decodeGroupIds, hids] at hdec
      rw [← hdec] at hg
      simp only [List.nil_append, List.mem_map] at hg
      obtain ⟨v, hv, hgv⟩ := hg
      obtain ⟨s, hvs, hs⟩ := decodeIdList_nonempty xs ids hall hids v hv
      exact ⟨s, by rw [← hgv]; simpa using hvs, hs⟩
    | none =>
      cases hgs : decodeUserGroupItems xs with
      | some gs =>
        simp [UserGroupsWrapper.unmarshalJSON, decodeGroupIds, decodeUserGroupList,
          hids, hgs] at hdec
        rw [← hdec] at hg
        exact decodeUserGroupItems_nonempty xs gs hall hgs g hg
      | none =>
        simp [UserGroupsWrapper.unmarshalJSON, decodeGroupIds, decodeUserGroupList,
          hids, hgs] at hdec
  | str s => simp [UserGroupsWrapper.unmarshalJSON, decodeGroupIds, decodeUserGroupList] at hdec
  | num n => simp [UserGroupsWrapper.unmarshalJSON, decodeGroupIds, decodeUserGroupList] at hdec
  | bool b => simp [UserGroupsWrapper.unmarshalJSON, decodeGroupIds, decodeUserGroupList] at hdec
  | obj fs =>
    simp [UserGroupsWrapper.unmarshalJSON, decodeGroupIds, decodeUserGroupList] at hdec

theorem claim4_amended_witness :
    ∃ s, (⟨some "g1", "Eng"⟩ : UserGroup).ID = some s ∧ s ≠ "" :=
  claim4_amended (Json.arr [Json.obj [("id", Json.str "g1"), ("name", Json.str "Eng")]])
    ⟨[⟨some "g1", "Eng"⟩]⟩ (by decide) rfl ⟨some "g1", "Eng"⟩ (by simp)

/-- Claim C10: with an absent identifier pointer, Get, Update and Delete
dereference nil and abort (outcome `none`, the panic) instead of
returning the validation error; and the group-membership encoder is
total exactly when every group's ID pointer is present: any absent ID
pointer makes it abort, and with all pointers present it returns a
value. -/
theorem claim10_nil_pointer_panics :
    (∀ (user : User) (e : Exchange), user.ID = none →
      (Users.Get user e).outcome = none ∧ (Users.Update user e).outcome = none
      ∧ (Users.Delete user e).outcome = none)
    ∧ (∀ gs : List UserGroup,
        (∀ g ∈ gs, g.ID = none → UserGroupsWrapper.marshalJSON ⟨gs⟩ = none)
        ∧ ((∀ g ∈ gs, (g.ID).isSome) → (UserGroupsWrapper.marshalJSON ⟨gs⟩).isSome)) := by
  constructor
  · intro user e hid
    refine ⟨?_, ?_, ?_⟩ <;> simp [Users.Get, Users.Update, Users.Delete, hid]
  · intro gs
    constructor
    · intro g hg hid
      simp [UserGroupsWrapper.marshalJSON, collectGroupIds_eq_none gs g hg hid]
    · intro h
      simp [UserGroupsWrapper.marshalJSON, collectGroupIds_eq_filterMap gs h]

theorem claim10_nil_pointer_panics_witness :
    (Users.Get { ID := none } {}).outcome = none
    ∧ UserGroupsWrapper.marshalJSON ⟨[⟨none, ""⟩]⟩ = none
    ∧ (UserGroupsWrapper.marshalJSON ⟨[⟨some "a", ""⟩]⟩).isSome :=
  ⟨(claim10_nil_pointer_panics.1 { ID := none } {} rfl).1,
   (claim10_nil_pointer_panics.2 [⟨none, ""⟩]).1 ⟨none, ""⟩ (by simp) rfl,
   (claim10_nil_pointer_panics.2 [⟨some "a", ""⟩]).2 (by decide)⟩

/-- Claim C8: for every User with non-empty identifier and a collaborator
that builds and executes the request, Delete succeeds, sets the
identifier to the empty string, leaves every other field unchanged, and
never reads the response body (the result is invariant under the body
component of the exchange). -/
theorem claim8_delete_clears_id (user : User) (id : String) (e : Exchange)
    (hid : user.ID = some id) (hne : id ≠ "")
    (hreq : e.reqErr = none) (hdo : e.doErr = none) :
    Users.Delete user e =
      ⟨some (Except.ok ()), { user with ID := some "" },
       { built := [⟨"DELETE", baseUserPath ++ "/" ++ id, none, none⟩], executed := 1 }⟩
    ∧ ∀ b, Users.Delete user { e with body := b } = Users.Delete user e := by
  constructor
  · simp [Users.Delete, hid, hne, hreq, hdo]
  · intro b
    simp [Users.Delete, hid, hne, hreq, hdo]

theorem claim8_delete_clears_id_witness :
    Users.Delete { ID := some "u1", Customer := "c", Credential := "p" } {} =
      ⟨some (Except.ok ()), { ID := some "", Customer := "c", Credential := "p" },
       { built := [⟨"DELETE", baseUserPath ++ "/" ++ "u1", none, none⟩], executed := 1 }⟩
    ∧ Users.Delete { ID := some "u1", Customer := "c", Credential := "p" }
        { body := Except.error "x" }
      = Users.Delete { ID := some "u1", Customer := "c", Credential := "p" } {} :=
  ⟨(claim8_delete_clears_id { ID := some "u1", Customer := "c", Credential := "p" }
      "u1" {} rfl (by decide) rfl rfl).1,
   (claim8_delete_clears_id { ID := some "u1", Customer := "c", Credential := "p" }
      "u1" {} rfl (by decide) rfl rfl).2 (Except.error "x")⟩

theorem decodeCreateEnvelopeFields_eq_applyResponses (fs : List (String × Json)) :
    ∀ u, decodeCreateEnvelopeFields u fs = applyResponses u (responseVals fs) := by
  induction fs with
  | nil => intro u; rfl
  | cons kv rest ih =>
    intro u
    obtain ⟨k, v⟩ := kv
    rw [decodeCreateEnvelopeFields, responseVals]
    by_cases hk : k = "response"
    · rw [if_pos hk, if_pos hk, applyResponses]
      cases hd : decodeUserInto u v with
      | ok u2 => simp only [hd]; exact ih u2
      | error e => simp only [hd]
    · rw [if_neg hk, if_neg hk]
      exact ih u

/-- Claim C7: for every NewUserRequest with non-empty email (and a
marshallable body), Create builds exactly one POST to the base user path
whose only query parameter is sendEmail, the string "true" or "false"
matching the boolean; the result is determined by the `response` values
of the body alone (two successful bodies agreeing on `response` give
identical results), and a successful body with no `response` key leaves
the output User untouched: the top-level body never populates it. -/
theorem claim7_create_query_and_envelope (nu : NewUserRequest) (user : User)
    (se : Bool) (e : Exchange) (payload : Json)
    (hmail : nu.EmailAddress ≠ "") (hm : NewUserRequest.marshalJSON nu = some payload) :
    (Users.Create nu user se e).calls.built =
      [⟨"POST", baseUserPath,
        some [("sendEmail", if se then "true" else "false")], some payload⟩]
    ∧ (∀ (fs1 fs2 : List (String × Json)) (e1 e2 : Exchange),
        e1.reqErr = none → e1.doErr = none → e1.body = Except.ok (Json.obj fs1) →
        e2.reqErr = none → e2.doErr = none → e2.body = Except.ok (Json.obj fs2) →
        responseVals fs1 = responseVals fs2 →
        Users.Create nu user se e1 = Users.Create nu user se e2)
    ∧ (∀ fs, e.reqErr = none → e.doErr = none → e.body = Except.ok (Json.obj fs) →
        responseVals fs = [] →
        (Users.Create nu user se e).outcome = some (Except.ok ())
        ∧ (Users.Create nu user se e).user = user) := by
  refine ⟨?_, ?_, ?_⟩
  · rcases e with ⟨reqErr, doErr, body⟩
    cases reqErr with
    | some err => simp [Users.Create, hmail, hm]
    | none =>
      cases doErr with
      | some err => simp [Users.Create, hmail, hm]
      | none =>
        cases body with
        | error err => simp [Users.Create, hmail, hm]
        | ok b =>
          cases hd : decodeCreateEnvelope user b with
          | ok u2 => simp [Users.Create, hmail, hm, hd]
          | error err => simp [Users.Create, hmail, hm, hd]
  · intro fs1 fs2 e1 e2 hreq1 hdo1 hbody1 hreq2 hdo2 hbody2 hresp
    have henv : decodeCreateEnvelope user (Json.obj fs1)
        = decodeCreateEnvelope user (Json.obj fs2) := by
      rw [decodeCreateEnvelope, decodeCreateEnvelope,
        decodeCreateEnvelopeFields_eq_applyResponses,
        decodeCreateEnvelopeFields_eq_applyResponses, hresp]
    simp [Users.Create, hmail, hm, hreq1, hdo1, hbody1, hreq2, hdo2, hbody2, henv]
  · intro fs hreq hdo hbody hresp
    have henv : decodeCreateEnvelope user (Json.obj fs) = Except.ok user := by
      rw [decodeCreateEnvelope, decodeCreateEnvelopeFields_eq_applyResponses, hresp]
      rfl
    constructor <;> simp [Users.Create, hmail, hm, hreq, hdo, hbody, henv]

theorem claim7_create_query_and_envelope_witness :
    (Users.Create { EmailAddress := "a@b.c" } {} true
        { body := Except.ok (Json.obj [("identifier", Json.str "top"),
            ("response", Json.obj [("identifier", Json.str "env")])]) }).calls.built
      = [⟨"POST", baseUserPath, some [("sendEmail", "true")],
          some (Json.obj [("emailAddress", Json.str "a@b.c"), ("userGroups", Json.null)])⟩]
    ∧ Users.Create { EmailAddress := "a@b.c" } {} true
        { body := Except.ok (Json.obj [("identifier", Json.str "top"),
            ("response", Json.obj [("identifier", Json.str "env")])]) }
      = Users.Create { EmailAddress := "a@b.c" } {} true
        { body := Except.ok (Json.obj [("response",
            Json.obj [("identifier", Json.str "env")])]) }
    ∧ ((Users.Create { EmailAddress := "a@b.c" } {} true
          { body := Except.ok (Json.obj [("identifier", Json.str "top")]) }).outcome
        = some (Except.ok ())
      ∧ (Users.Create { EmailAddress := "a@b.c" } {} true
          { body := Except.ok (Json.obj [("identifier", Json.str "top")]) }).user = {}) :=
  ⟨(claim7_create_query_and_envelope { EmailAddress := "a@b.c" } {} true
      { body := Except.ok (Json.obj [("identifier", Json.str "top"),
          ("response", Json.obj [("identifier", Json.str "env")])]) } _
      (by decide) rfl).1,
   (claim7_create_query_and_envelope { EmailAddress := "a@b.c" } {} true
      { body := Except.ok (Json.obj [("identifier", Json.str "top"),
          ("response", Json.obj [("identifier", Json.str "env")])]) } _
      (by decide) rfl).2.1
      [("identifier", Json.str "top"), ("response", Json.obj [("identifier", Json.str "env")])]
      [("response", Json.obj [("identifier", Json.str "env")])]
      { body := Except.ok (Json.obj [("identifier", Json.str "top"),
          ("response", Json.obj [("identifier", Json.str "env")])]) }
      { body := Except.ok (Json.obj [("response",
          Json.obj [("identifier", Json.str "env")])]) }
      rfl rfl rfl rfl rfl rfl rfl,
   (claim7_create_query_and_envelope { EmailAddress := "a@b.c" } {} true
      { body := Except.ok (Json.obj [("identifier", Json.str "top")]) } _
      (by decide) rfl).2.2
      [("identifier", Json.str "top")] rfl rfl rfl rfl⟩

theorem findGo_pages (filter : List SearchCondition)
    (lastItems : Json) (lastUsers : List (Option User))
    (hlast : decodeUsers lastItems = Except.ok lastUsers)
    (lastOff : Int) (extra : List PageReply)
    (ps : List (Json × Int)) (ls : List (List (Option User)))
    (h : List.Forall₂ (fun p l => decodeUsers p.1 = Except.ok l) ps ls) :
    ∀ (offset : Int) (acc : List (Option User)) (calls : List SearchCall),
    Users.findGo filter
        (ps.map (fun p => PageReply.page p.1 true p.2)
          ++ PageReply.page lastItems false lastOff :: extra) offset acc calls
      = ⟨Except.ok (acc ++ ls.flatten ++ lastUsers),
         calls ++ (offset :: ps.map Prod.snd).map
           (fun o => ⟨"user", filter, o⟩)⟩ := by
  induction h with
  | nil =>
    intro offset acc calls
    simp [Users.findGo, hlast]
  | @cons p l ps2 ls2 hpl hrest ih =>
    intro offset acc calls
    rw [List.map_cons, List.cons_append, Users.findGo]
    simp only [hpl, if_true]
    rw [ih]
    simp [List.append_assoc]

/-- Claim C5: for every finite run of successful pages whose "more
items" flags are true on every page but the last, Find makes exactly one
search call per page — each of type "user" with the given conditions,
starting at offset 0 and passing each page's next-offset as the
following call's offset — stops at the false flag (later collaborator
replies are never consumed), and returns the concatenation of all the
pages' decoded items in order. -/
theorem claim5_find_pagination (filter : List SearchCondition)
    (ps : List (Json × Int)) (ls : List (List (Option User)))
    (hps : List.Forall₂ (fun p l => decodeUsers p.1 = Except.ok l) ps ls)
    (lastItems : Json) (lastUsers : List (Option User))
    (hlast : decodeUsers lastItems = Except.ok lastUsers)
    (lastOff : Int) (extra : List PageReply) :
    (Users.Find filter (ps.map (fun p => PageReply.page p.1 true p.2)
        ++ PageReply.page lastItems false lastOff :: extra)).result
      = Except.ok (ls.flatten ++ lastUsers)
    ∧ (Users.Find filter (ps.map (fun p => PageReply.page p.1 true p.2)
        ++ PageReply.page lastItems false lastOff :: extra)).calls
      = (0 :: ps.map Prod.snd).map (fun o => ⟨"user", filter, o⟩) := by
  rw [Users.Find, findGo_pages filter lastItems lastUsers hlast lastOff extra ps ls hps]
  simp

theorem claim5_find_pagination_witness :
    (Users.Find []
        [PageReply.page (Json.arr [Json.obj [("identifier", Json.str "a")]]) true 5,
         PageReply.page (Json.arr [Json.obj [("identifier", Json.str "b")]]) true 9,
         PageReply.page (Json.arr [Json.obj [("identifier", Json.str "c")]]) false 7]).result
      = Except.ok [some { ID := some "a" }, some { ID := some "b" }, some { ID := some "c" }]
    ∧ (Users.Find []
        [PageReply.page (Json.arr [Json.obj [("identifier", Json.str "a")]]) true 5,
         PageReply.page (Json.arr [Json.obj [("identifier", Json.str "b")]]) true 9,
         PageReply.page (Json.arr [Json.obj [("identifier", Json.str "c")]]) false 7]).calls
      = [⟨"user", [], 0⟩, ⟨"user", [], 5⟩, ⟨"user", [], 9⟩] :=
  claim5_find_pagination []
    [(Json.arr [Json.obj [("identifier", Json.str "a")]], 5),
     (Json.arr [Json.obj [("identifier", Json.str "b")]], 9)]
    [[some { ID := some "a" }], [some { ID := some "b" }]]
    (List.Forall₂.cons rfl (List.Forall₂.cons rfl List.Forall₂.nil))
    (Json.arr [Json.obj [("identifier", Json.str "c")]])
    [some { ID := some "c" }] rfl 7 []

theorem findGo_error (filter : List SearchCondition) (emsg : String) (bad : PageReply)
    (hbad : bad = PageReply.err emsg ∨ ∃ items moreItems nextOffset,
        bad = PageReply.page items moreItems nextOffset
        ∧ decodeUsers items = Except.error emsg)
    (rest : List PageReply)
    (ps : List (Json × Int)) (ls : List (List (Option User)))
    (h : List.Forall₂ (fun p l => decodeUsers p.1 = Except.ok l) ps ls) :
    ∀ (offset : Int) (acc : List (Option User)) (calls : List SearchCall),
    (Users.findGo filter (ps.map (fun p => PageReply.page p.1 true p.2) ++ bad :: rest)
        offset acc calls).result = Except.error emsg := by
  induction h with
  | nil =>
    intro offset acc calls
    rcases hbad with hb | ⟨items, mi, no, hb, hd⟩
    · subst hb
      simp [Users.findGo]
    · subst hb
      simp [Users.findGo, hd]
  | @cons p l ps2 ls2 hpl hrest ih =>
    intro offset acc calls
    rw [List.map_cons, List.cons_append, Users.findGo]
    simp only [hpl, if_true]
    exact ih _ _ _

/-- Claim C6: whenever some page of the run fails — the search execution
returns an error, or that page's items fail to decode — Find returns
exactly that error, and the accumulation from the earlier successful
pages is discarded: the error result carries no items at all. -/
theorem claim6_find_error_no_partial (filter : List SearchCondition)
    (ps : List (Json × Int)) (ls : List (List (Option User)))
    (hps : List.Forall₂ (fun p l => decodeUsers p.1 = Except.ok l) ps ls)
    (bad : PageReply) (emsg : String)
    (hbad : bad = PageReply.err emsg ∨ ∃ items moreItems nextOffset,
        bad = PageReply.page items moreItems nextOffset
        ∧ decodeUsers items = Except.error emsg)
    (rest : List PageReply) :
    (Users.Find filter
        (ps.map (fun p => PageReply.page p.1 true p.2) ++ bad :: rest)).result
      = Except.error emsg := by
  rw [Users.Find]
  exact findGo_error filter emsg bad hbad rest ps ls hps 0 [] []

theorem claim6_find_error_no_partial_witness :
    (Users.Find [] [PageReply.page (Json.arr [Json.obj [("identifier", Json.str "a")]]) true 3,
        PageReply.err "boom"]).result
      = Except.error "boom" :=
  claim6_find_error_no_partial []
    [(Json.arr [Json.obj [("identifier", Json.str "a")]], 3)]
    [[some { ID := some "a" }]]
    (List.Forall₂.cons rfl List.Forall₂.nil)
    (PageReply.err "boom") "boom" (Or.inl rfl) []
